import Mathlib

/-!
Verification of the tailgate mixed-protocol relay core.

Go strings are modelled as `List Char`; the functions below are direct
translations of the Go source (`proxy.go` and the HTTP CONNECT handler file):
`strings.TrimSpace`, `strings.ContainsAny`, `net.SplitHostPort`,
`net.JoinHostPort`, `strconv.ParseUint(_, 10, 16)` and the repository's own
`connectTarget`, `classifyReadRequestError`, `writeHTTPError`,
`handleHTTPConnect` control flow, `handleConn` protocol dispatch,
`idleTimeoutConn`, and `nextRetryDelay`.
-/

namespace Tailgate

/-- `unicode.IsSpace` as used by Go's `strings.TrimSpace`: the ASCII
spaces plus NEL, NBSP and the other `unicode.White_Space` code points. -/
def goIsSpace (c : Char) : Bool :=
  c.toNat = 9 || c.toNat = 10 || c.toNat = 11 || c.toNat = 12 ||
  c.toNat = 13 || c.toNat = 32 || c.toNat = 0x85 || c.toNat = 0xA0 ||
  c.toNat = 0x1680 || (0x2000 ≤ c.toNat && c.toNat ≤ 0x200A) ||
  c.toNat = 0x2028 || c.toNat = 0x2029 || c.toNat = 0x202F ||
  c.toNat = 0x205F || c.toNat = 0x3000

/-- Go `strings.TrimSpace`: drop Unicode space from both ends. -/
def trimSpace (l : List Char) : List Char :=
  ((l.dropWhile goIsSpace).reverse.dropWhile goIsSpace).reverse

/-- Whether `l` has a character from `cs` (Go `strings.ContainsAny`). -/
def containsAny (l : List Char) (cs : List Char) : Bool :=
  l.any (fun c => cs.contains c)

/-- Whether the character `c` occurs in `l`. -/
def hasChar (l : List Char) (c : Char) : Bool :=
  l.any (fun x => x = c)

/-- Occurrences of `c` in `l` (Go `strings.Count` with a 1-char pattern). -/
def countChar (l : List Char) (c : Char) : Nat :=
  match l with
  | [] => 0
  | a :: t => (if a = c then 1 else 0) + countChar t c

/-- Index of the first occurrence of `c` (Go `bytealg.IndexByteString`). -/
def firstIdx (l : List Char) (c : Char) : Option Nat :=
  match l with
  | [] => none
  | a :: t => if a = c then some 0 else (firstIdx t c).map (· + 1)

/-- Index of the last occurrence of `c` (Go `net.last`). -/
def lastIdx (l : List Char) (c : Char) : Option Nat :=
  match l with
  | [] => none
  | a :: t =>
    match lastIdx t c with
    | some j => some (j + 1)
    | none => if a = c then some 0 else none

/-- The error strings carried by `net.AddrError` in `net.SplitHostPort`. -/
inductive SplitErr where
  | missingPort
  | tooManyColons
  | missingRightBracket
  | unexpectedRightBracket
deriving DecidableEq, Repr

/-- Go `net.SplitHostPort`, translated clause by clause.  All failure
returns are `net.AddrError` values whose `Err` field is one of the four
fixed messages represented by `SplitErr`. -/
def splitHostPort (s : List Char) : Except SplitErr (List Char × List Char) :=
  match lastIdx s ':' with
  | none => .error .missingPort
  | some i =>
    if s.head? = some '[' then
      match firstIdx s ']' with
      | none => .error .missingRightBracket
      | some e =>
        if e + 1 = s.length then .error .missingPort
        else if e + 1 = i then
          -- host = s[1:e]; j, k = 1, e+1
          if hasChar (s.drop 1) '[' then .error .missingRightBracket
          else if hasChar (s.drop (e + 1)) ']' then .error .unexpectedRightBracket
          else .ok ((s.drop 1).take (e - 1), s.drop (i + 1))
        else if (s.drop (e + 1)).head? = some ':' then .error .tooManyColons
        else .error .missingPort
    else
      let host := s.take i
      if hasChar host ':' then .error .tooManyColons
      else if hasChar s '[' then .error .missingRightBracket
      else if hasChar s ']' then .error .unexpectedRightBracket
      else .ok (host, s.drop (i + 1))

/-- Go `net.JoinHostPort`: brackets the host iff it contains a colon. -/
def joinHostPort (host port : List Char) : List Char :=
  if hasChar host ':' then '[' :: host ++ ']' :: ':' :: port
  else host ++ ':' :: port

/-- ASCII decimal digit test, as accepted by `strconv.ParseUint` in base 10
(Go compares the byte against `'0'` and `'9'`, i.e. 48 and 57). -/
def goDigit (c : Char) : Bool := 48 ≤ c.toNat && c.toNat ≤ 57

/-- Base-10 value of a digit string. -/
def digitsVal (l : List Char) : Nat :=
  l.foldl (fun acc c => acc * 10 + (c.toNat - 48)) 0

/-- Go `strconv.ParseUint(port, 10, 16)`: nonempty, all ASCII digits, and
the value must fit in 16 bits; any sign, other character, or overflow is
an error (`none`). -/
def parseUint16 (l : List Char) : Option Nat :=
  if l.isEmpty then none
  else if l.all goDigit then
    if digitsVal l ≤ 65535 then some (digitsVal l) else none
  else none

/-- Errors produced by `connectTarget` (the Go function returns `error`
values; the constructors record which `return` produced them). -/
inductive TargetErr where
  | emptyHost
  | invalidHostFormat
  | invalidPort
  | splitFailed (e : SplitErr)
deriving DecidableEq, Repr

/-- Result of `connectTarget`, mirroring Go's `(string, error)` pair. -/
inductive TargetResult where
  | ok (addr : List Char)
  | err (e : TargetErr)
deriving DecidableEq, Repr

/-- The repository's `connectTarget`, translated line by line.  The final
Go clause `errors.As(err, &addrErr) && strings.Contains(addrErr.Err,
"missing port in address")` holds exactly when the split error is
`.missingPort`: every `SplitHostPort` failure is an `AddrError`, and of the
four fixed messages only `"missing port in address"` contains that text. -/
def connectTarget (hostport0 : List Char) : TargetResult :=
  let hostport := trimSpace hostport0
  if hostport.isEmpty then .err .emptyHost
  else if containsAny hostport [' ', '/', '\\'] then .err .invalidHostFormat
  else
    match splitHostPort hostport with
    | .ok (host, port) =>
      if (trimSpace host).isEmpty then .err .emptyHost
      else
        match parseUint16 port with
        | none => .err .invalidPort
        | some p =>
          if p = 0 then .err .invalidPort
          else .ok (joinHostPort host port)
    | .error e =>
      if countChar hostport ':' ≥ 2 && !(hostport.head? = some '[') then
        .ok (joinHostPort hostport ['4', '4', '3'])
      else if e = .missingPort then
        .ok (joinHostPort hostport ['4', '4', '3'])
      else .err (.splitFailed e)

/-- String-level wrapper for stating concrete evaluations. -/
def connectTargetS (s : String) : TargetResult := connectTarget s.data

-- Sanity checks reproducing the repository's own `TestConnectTarget` table.
example : connectTargetS "example.com:8443" = .ok "example.com:8443".data := by decide
example : connectTargetS "example.com" = .ok "example.com:443".data := by decide
example : connectTargetS "127.0.0.1" = .ok "127.0.0.1:443".data := by decide
example : connectTargetS "::1" = .ok "[::1]:443".data := by decide
example : connectTargetS "" = .err .emptyHost := by decide
example : connectTargetS "example.com:abc" = .err .invalidPort := by decide
example : connectTargetS "example.com/path" = .err .invalidHostFormat := by decide

/-! ## Protocol dispatcher (`handleConn`, `peekedConn`, `isSOCKS5`) -/

/-- The SOCKS5 version-marker test from `proxy.go`. -/
def isSOCKS5 (firstByte : Nat) : Bool := firstByte = 0x05

/-- A `bufio.Reader`: already-buffered bytes served first, then the
remaining bytes of the underlying connection. -/
structure BufReader where
  buf : List Nat
  src : List Nat
deriving DecidableEq, Repr

/-- `bufio.Reader.Peek(1)`: returns the first byte without consuming it;
on an empty buffer it fills the buffer with one byte from the underlying
stream.  `none` models the error return (EOF / deadline). -/
def BufReader.peek1 (r : BufReader) : Option (Nat × BufReader) :=
  match r.buf with
  | b :: _ => some (b, r)
  | [] =>
    match r.src with
    | [] => none
    | b :: rest => some (b, ⟨[b], rest⟩)

/-- All bytes a downstream reader will observe through the reader
(`peekedConn.Read` drains the buffer first, then the connection). -/
def BufReader.readAll (r : BufReader) : List Nat := r.buf ++ r.src

/-- Where `handleConn` hands the connection. -/
inductive Route where
  | socks5
  | http
  | dropped
deriving DecidableEq, Repr

/-- `handleConn` from `proxy.go`: wrap the connection in a `bufio.Reader`,
peek one byte (dropping the connection if the peek fails), then route on
`isSOCKS5`; both paths receive the peeked-byte-replaying reader.  The
returned list is the byte stream the chosen downstream handler observes. -/
def handleConn (input : List Nat) : Route × List Nat :=
  let br : BufReader := ⟨[], input⟩
  match br.peek1 with
  | none => (.dropped, [])
  | some (first, br2) =>
    if isSOCKS5 first then (.socks5, br2.readAll)
    else (.http, br2.readAll)

/-! ## HTTP CONNECT handler (`handleHTTPConnect`, `writeHTTPError`,
`classifyReadRequestError`) -/

/-- The `http.Response` built by `writeHTTPError`: status, `Close: true`,
and the two headers it sets. -/
structure ErrorResponse where
  statusCode : Nat
  close : Bool
  contentType : String
  connectionHeader : String
  body : String
deriving DecidableEq, Repr

/-- `writeHTTPError` from the handler file. -/
def writeHTTPError (code : Nat) (body : String) : ErrorResponse :=
  { statusCode := code
    close := true
    contentType := "text/plain; charset=utf-8"
    connectionHeader := "close"
    body := body }

/-- The fields of the parsed `http.Request` the handler inspects. -/
structure HttpRequest where
  method : String
  host : String
deriving DecidableEq, Repr

/-- The observations `classifyReadRequestError` makes of a failed
`http.ReadRequest`: the limited reader's remaining quota `lr.N` (an
`int64`) and whether `errors.Is(err, bufio.ErrBufferFull)` holds. -/
structure ReadErrInfo where
  lrN : Int
  isBufferFull : Bool
deriving DecidableEq, Repr

/-- Outcome of `http.ReadRequest` on the capped reader. -/
inductive ReadOutcome where
  | ok (req : HttpRequest)
  | err (e : ReadErrInfo)
deriving DecidableEq, Repr

/-- `classifyReadRequestError`, translated directly (the `lr != nil` guard
always holds at the call site: `lr` is the local limited reader). -/
def classifyReadRequestError (e : ReadErrInfo) : Nat :=
  if e.lrN ≤ 0 then 431
  else if e.isBufferFull then 431
  else 400

/-- What `handleHTTPConnect` writes to the client before (possibly)
relaying: either an error response via `writeHTTPError`, or the raw
success literal written with `fmt.Fprint`. -/
inductive WireWrite where
  | errorResp (r : ErrorResponse)
  | raw (s : String)
deriving DecidableEq, Repr

/-- The decision core of `handleHTTPConnect`: given the outcome of reading
the request and whether `net.DialTimeout` would succeed on the resolved
target, produce the wire write and whether a dial was attempted.  This is
the handler's control flow up to the relay phase, clause by clause. -/
def handleHTTPConnect (ro : ReadOutcome) (dialOk : Bool) : WireWrite × Bool :=
  match ro with
  | .err e =>
    let status := classifyReadRequestError e
    if status = 431 then (.errorResp (writeHTTPError 431 "request too large\n"), false)
    else (.errorResp (writeHTTPError 400 "malformed request\n"), false)
  | .ok req =>
    if req.method ≠ "CONNECT" then
      (.errorResp (writeHTTPError 405 "CONNECT required\n"), false)
    else
      match connectTargetS req.host with
      | .err _ => (.errorResp (writeHTTPError 400 "invalid CONNECT host\n"), false)
      | .ok _ =>
        if dialOk then (.raw "HTTP/1.1 200 Connection Established\r\n\r\n", true)
        else (.errorResp (writeHTTPError 502 "dial failed\n"), true)

/-! ## Idle-timeout wrapper (`idleTimeoutConn`, `tunnelIdleTimeout`) -/

/-- `tunnelIdleTimeout = 5 * time.Minute`, in nanoseconds
(`time.Duration` units). -/
def tunnelIdleTimeout : Int := 300000000000

/-- A `net.Conn` as the wrapper sees it: an absolute deadline (set via
`SetDeadline`), the pending inbound bytes, and the bytes written so far. -/
structure ConnState where
  deadline : Int
  input : List Nat
  output : List Nat
deriving DecidableEq, Repr

/-- `conn.SetDeadline(t)`. -/
def ConnState.setDeadline (st : ConnState) (t : Int) : ConnState :=
  { st with deadline := t }

/-- `conn.Read` into a buffer of length `n`: delivers up to `n` pending
bytes. -/
def ConnState.read (st : ConnState) (n : Nat) : List Nat × ConnState :=
  (st.input.take n, { st with input := st.input.drop n })

/-- `conn.Write(p)`. -/
def ConnState.write (st : ConnState) (p : List Nat) : ConnState :=
  { st with output := st.output ++ p }

/-- `idleTimeoutConn`: a connection plus the configured idle duration. -/
structure IdleTimeoutConn where
  conn : ConnState
  timeout : Int
deriving DecidableEq, Repr

/-- `idleTimeoutConn.Read`: `SetDeadline(now + timeout)` first, then
delegate to the underlying `Read`. -/
def IdleTimeoutConn.read (c : IdleTimeoutConn) (now : Int) (n : Nat) :
    List Nat × IdleTimeoutConn :=
  let st := c.conn.setDeadline (now + c.timeout)
  let (bs, st2) := st.read n
  (bs, { c with conn := st2 })

/-- `idleTimeoutConn.Write`: `SetDeadline(now + timeout)` first, then
delegate to the underlying `Write`. -/
def IdleTimeoutConn.write (c : IdleTimeoutConn) (now : Int) (p : List Nat) :
    IdleTimeoutConn :=
  let st := c.conn.setDeadline (now + c.timeout)
  { c with conn := st.write p }

/-! ## Accept-loop retry backoff (`nextRetryDelay`, `serve`) -/

/-- `maxAcceptRetryDelay = 1 * time.Second`, in nanoseconds. -/
def maxAcceptRetryDelay : Int := 1000000000

/-- Two's-complement wrap of an `int64` product. -/
def wrap64 (x : Int) : Int := (x + 2 ^ 63) % 2 ^ 64 - 2 ^ 63

/-- `nextRetryDelay` from `proxy.go` (`time.Duration` is `int64`, so the
doubling wraps). -/
def nextRetryDelay (current : Int) : Int :=
  if current ≤ 0 then 50000000
  else
    let next := wrap64 (2 * current)
    if next > maxAcceptRetryDelay then maxAcceptRetryDelay else next

/-- The accept loop's update of `retryDelay` (proxy.go lines 42 and 54):
reset to zero on a successful accept, advanced through `nextRetryDelay`
on a transient accept failure. -/
def serveRetryStep (acceptOk : Bool) (retryDelay : Int) : Int :=
  if acceptOk then 0 else nextRetryDelay retryDelay

/-! ## Claim-side well-formedness predicates -/

/-- A character allowed in a well-formed unbracketed host: not Unicode
whitespace and none of the delimiter characters `: [ ] / \`. -/
def SafeHostChar (c : Char) : Prop :=
  goIsSpace c = false ∧ c ≠ ':' ∧ c ≠ '[' ∧ c ≠ ']' ∧ c ≠ '/' ∧ c ≠ '\\'

/-- A character allowed inside a bracketed IPv6 host: as `SafeHostChar`
but colons are permitted. -/
def SafeV6Char (c : Char) : Prop :=
  goIsSpace c = false ∧ c ≠ '[' ∧ c ≠ ']' ∧ c ≠ '/' ∧ c ≠ '\\'

/-- A well-formed port component: a nonempty base-10 digit string whose
value lies in [1, 65535]. -/
def validPortStr (p : List Char) : Prop :=
  p ≠ [] ∧ p.all goDigit = true ∧ 1 ≤ digitsVal p ∧ digitsVal p ≤ 65535

instance (c : Char) : Decidable (SafeHostChar c) := by
  unfold SafeHostChar; infer_instance

instance (c : Char) : Decidable (SafeV6Char c) := by
  unfold SafeV6Char; infer_instance

instance (p : List Char) : Decidable (validPortStr p) := by
  unfold validPortStr; infer_instance

/-! ## Helper lemmas -/

theorem hasChar_eq_false_iff (l : List Char) (c : Char) :
    hasChar l c = false ↔ ∀ x ∈ l, x ≠ c := by
  simp [hasChar]

theorem countChar_eq_zero_of (l : List Char) (c : Char)
    (h : ∀ x ∈ l, x ≠ c) : countChar l c = 0 := by
  induction l with
  | nil => rfl
  | cons a t ih =>
    have ha : a ≠ c := h a (List.mem_cons_self a t)
    simp only [countChar, if_neg ha, Nat.zero_add]
    exact ih fun x hx => h x (List.mem_cons_of_mem a hx)

theorem countChar_append (l1 l2 : List Char) (c : Char) :
    countChar (l1 ++ l2) c = countChar l1 c + countChar l2 c := by
  induction l1 with
  | nil => simp [countChar]
  | cons a t ih =>
    show (if a = c then 1 else 0) + countChar (t ++ l2) c =
      (if a = c then 1 else 0) + countChar t c + countChar l2 c
    rw [ih]
    omega

theorem lastIdx_eq_none_iff (l : List Char) (c : Char) :
    lastIdx l c = none ↔ ∀ x ∈ l, x ≠ c := by
  induction l with
  | nil => simp [lastIdx]
  | cons a t ih =>
    cases hl : lastIdx t c with
    | some j =>
      simp only [lastIdx, hl]
      constructor
      · intro h; cases h
      · intro h
        have : lastIdx t c = none :=
          ih.mpr fun x hx => h x (List.mem_cons_of_mem a hx)
        rw [hl] at this; cases this
    | none =>
      simp only [lastIdx, hl]
      constructor
      · intro h
        by_cases ha : a = c
        · rw [if_pos ha] at h; cases h
        · intro x hx
          rcases List.mem_cons.mp hx with rfl | hx
          · exact ha
          · exact (ih.mp hl) x hx
      · intro h
        exact if_neg (h a (List.mem_cons_self a t))

theorem lastIdx_append_cons (l p : List Char) (c : Char)
    (hp : ∀ x ∈ p, x ≠ c) : lastIdx (l ++ c :: p) c = some l.length := by
  induction l with
  | nil =>
    have hz : lastIdx p c = none := (lastIdx_eq_none_iff p c).mpr hp
    simp [lastIdx, hz]
  | cons a t ih =>
    simp [lastIdx, ih]

theorem lastIdx_decomp (l : List Char) (c : Char) (i : Nat)
    (h : lastIdx l c = some i) :
    l.take i ++ c :: l.drop (i + 1) = l ∧ ∀ x ∈ l.drop (i + 1), x ≠ c := by
  induction l generalizing i with
  | nil => cases h
  | cons a t ih =>
    cases hl : lastIdx t c with
    | some j =>
      simp only [lastIdx, hl] at h
      injection h with h
      subst h
      obtain ⟨h1, h2⟩ := ih j hl
      constructor
      · simpa [List.take_succ_cons, List.drop_succ_cons] using h1
      · simpa [List.drop_succ_cons] using h2
    | none =>
      simp only [lastIdx, hl] at h
      by_cases ha : a = c
      · rw [if_pos ha] at h
        injection h with h
        subst h
        subst ha
        exact ⟨rfl, (lastIdx_eq_none_iff t a).mp hl⟩
      · rw [if_neg ha] at h; cases h

theorem lastIdx_isSome_of_hasChar (l : List Char) (c : Char)
    (h : hasChar l c = true) : ∃ i, lastIdx l c = some i := by
  cases hl : lastIdx l c with
  | some i => exact ⟨i, rfl⟩
  | none =>
    have hall := (lastIdx_eq_none_iff l c).mp hl
    rw [← hasChar_eq_false_iff] at hall
    rw [hall] at h; cases h

theorem firstIdx_append_cons (l p : List Char) (c : Char)
    (hl : ∀ x ∈ l, x ≠ c) : firstIdx (l ++ c :: p) c = some l.length := by
  induction l with
  | nil => simp [firstIdx]
  | cons a t ih =>
    have ha : a ≠ c := hl a (List.mem_cons_self a t)
    have iht := ih fun x hx => hl x (List.mem_cons_of_mem a hx)
    simp [firstIdx, ha, iht]

theorem dropWhile_goIsSpace_eq_self (l : List Char)
    (h : ∀ x ∈ l, goIsSpace x = false) : l.dropWhile goIsSpace = l := by
  cases l with
  | nil => rfl
  | cons a t =>
    simp [List.dropWhile_cons, h a (List.mem_cons_self a t)]

theorem trimSpace_eq_self (l : List Char)
    (h : ∀ x ∈ l, goIsSpace x = false) : trimSpace l = l := by
  unfold trimSpace
  rw [dropWhile_goIsSpace_eq_self l h,
    dropWhile_goIsSpace_eq_self l.reverse fun x hx =>
      h x (List.mem_reverse.mp hx),
    List.reverse_reverse]

theorem containsAny_eq_false_iff (l cs : List Char) :
    containsAny l cs = false ↔ ∀ x ∈ l, x ∉ cs := by
  simp [containsAny]

theorem ne_space_of_not_space (c : Char) (h : goIsSpace c = false) :
    c ≠ ' ' := by
  intro he; rw [he] at h; exact absurd h (by decide)

theorem hasChar_of_mem (l : List Char) (c : Char) (h : c ∈ l) :
    hasChar l c = true := by
  simpa [hasChar] using h

theorem goDigit_facts (c : Char) (h : goDigit c = true) :
    goIsSpace c = false ∧ c ≠ ':' ∧ c ≠ '[' ∧ c ≠ ']' ∧ c ≠ '/' ∧
      c ≠ '\\' ∧ c ≠ ' ' := by
  simp only [goDigit, Bool.and_eq_true, decide_eq_true_eq] at h
  obtain ⟨h1, h2⟩ := h
  refine ⟨?_, ?_, ?_, ?_, ?_, ?_, ?_⟩
  · simp only [goIsSpace, Bool.or_eq_false_iff, Bool.and_eq_false_iff,
      decide_eq_false_iff_not]
    omega
  · intro he; rw [he] at h1 h2; exact absurd h2 (by decide)
  · intro he; rw [he] at h1 h2; exact absurd h2 (by decide)
  · intro he; rw [he] at h1 h2; exact absurd h2 (by decide)
  · intro he; rw [he] at h1 h2; exact absurd h1 (by decide)
  · intro he; rw [he] at h1 h2; exact absurd h2 (by decide)
  · intro he; rw [he] at h1 h2; exact absurd h1 (by decide)

/-- `net.SplitHostPort` on an unbracketed `host:port` whose host and port
are free of `:`, `[`, `]` splits cleanly. -/
theorem splitHostPort_unbracketed (h p : List Char)
    (hh : ∀ x ∈ h, x ≠ ':' ∧ x ≠ '[' ∧ x ≠ ']')
    (hp : ∀ x ∈ p, x ≠ ':' ∧ x ≠ '[' ∧ x ≠ ']')
    (hhead : (h ++ ':' :: p).head? ≠ some '[') :
    splitHostPort (h ++ ':' :: p) = .ok (h, p) := by
  have hlast : lastIdx (h ++ ':' :: p) ':' = some h.length :=
    lastIdx_append_cons h p ':' fun x hx => (hp x hx).1
  have htake : (h ++ ':' :: p).take h.length = h := List.take_left' rfl
  have hdrop : (h ++ ':' :: p).drop (h.length + 1) = p := by
    have e1 : h ++ ':' :: p = (h ++ [':']) ++ p := by simp
    rw [e1, List.drop_left' (by simp)]
  have hcolon : hasChar h ':' = false :=
    (hasChar_eq_false_iff h ':').mpr fun x hx => (hh x hx).1
  have hlb : hasChar (h ++ ':' :: p) '[' = false := by
    rw [hasChar_eq_false_iff]
    intro x hx
    rcases List.mem_append.mp hx with hx | hx
    · exact (hh x hx).2.1
    · rcases List.mem_cons.mp hx with rfl | hx
      · decide
      · exact (hp x hx).2.1
  have hrb : hasChar (h ++ ':' :: p) ']' = false := by
    rw [hasChar_eq_false_iff]
    intro x hx
    rcases List.mem_append.mp hx with hx | hx
    · exact (hh x hx).2.2
    · rcases List.mem_cons.mp hx with rfl | hx
      · decide
      · exact (hp x hx).2.2
  simp only [splitHostPort, hlast]
  rw [if_neg hhead]
  simp only [htake, hcolon, hlb, hrb, hdrop, Bool.false_eq_true, if_false]

/-- `net.SplitHostPort` on a bracketed host `[h]:p` with bracket-free `h`
and a colon- and bracket-free `p` splits into `h` and `p`. -/
theorem splitHostPort_bracketed (h p : List Char)
    (hh : ∀ x ∈ h, x ≠ '[' ∧ x ≠ ']')
    (hp : ∀ x ∈ p, x ≠ ':' ∧ x ≠ '[' ∧ x ≠ ']') :
    splitHostPort ('[' :: h ++ ']' :: ':' :: p) = .ok (h, p) := by
  have e1 : ('[' : Char) :: h ++ ']' :: ':' :: p =
      ('[' :: (h ++ [']'])) ++ ':' :: p := by simp
  have hlast : lastIdx ('[' :: h ++ ']' :: ':' :: p) ':' =
      some (h.length + 2) := by
    rw [e1]
    have hres := lastIdx_append_cons ('[' :: (h ++ [']'])) p ':'
      fun x hx => (hp x hx).1
    simpa [Nat.add_comm, Nat.add_assoc, Nat.add_left_comm] using hres
  have hfirst : firstIdx ('[' :: h ++ ']' :: ':' :: p) ']' =
      some (h.length + 1) := by
    have e2 : ('[' : Char) :: h ++ ']' :: ':' :: p =
        ('[' :: h) ++ ']' :: (':' :: p) := by simp
    rw [e2]
    have hres := firstIdx_append_cons ('[' :: h) (':' :: p) ']' ?_
    · simpa [Nat.add_comm] using hres
    · intro x hx
      rcases List.mem_cons.mp hx with rfl | hx
      · decide
      · exact (hh x hx).2
  have hlen : ('[' :: h ++ ']' :: ':' :: p).length = h.length + 3 + p.length := by
    simp
    omega
  have hdrop1 : ('[' :: h ++ ']' :: ':' :: p).drop 1 = h ++ ']' :: ':' :: p := rfl
  have hdrop2 : ('[' :: h ++ ']' :: ':' :: p).drop (h.length + 1 + 1) =
      ':' :: p := by
    rw [e1, List.drop_left' (by simp)]
  have hdrop3 : ('[' :: h ++ ']' :: ':' :: p).drop (h.length + 2 + 1) = p := by
    have e3 : ('[' : Char) :: h ++ ']' :: ':' :: p =
        ('[' :: (h ++ [']', ':'])) ++ p := by simp
    rw [e3, List.drop_left' (by simp)]
  have htake : (h ++ ']' :: ':' :: p).take (h.length + 1 - 1) = h := by
    rw [Nat.add_sub_cancel, List.take_left' rfl]
  have hlb : hasChar (h ++ ']' :: ':' :: p) '[' = false := by
    rw [hasChar_eq_false_iff]
    intro x hx
    rcases List.mem_append.mp hx with hx | hx
    · exact (hh x hx).1
    · rcases List.mem_cons.mp hx with rfl | hx
      · decide
      · rcases List.mem_cons.mp hx with rfl | hx
        · decide
        · exact (hp x hx).2.1
  have hrb : hasChar (':' :: p) ']' = false := by
    rw [hasChar_eq_false_iff]
    intro x hx
    rcases List.mem_cons.mp hx with rfl | hx
    · decide
    · exact (hp x hx).2.2
  have hhd : ('[' :: h ++ ']' :: ':' :: p).head? = some '[' := rfl
  have hne : ¬(h.length + 1 + 1 = h.length + 3 + p.length) := by omega
  simp only [splitHostPort, hlast, hfirst, hlen, hdrop1, hdrop2, hdrop3,
    htake, hlb, hrb, Bool.false_eq_true, if_false, hhd, if_neg hne]
  simp

/-- Every error response `handleHTTPConnect` produces comes from
`writeHTTPError`, so it closes the connection and carries
`Connection: close`. -/
theorem handleHTTPConnect_error_close (ro : ReadOutcome) (d : Bool)
    (r : ErrorResponse) (b : Bool)
    (h : handleHTTPConnect ro d = (.errorResp r, b)) :
    r.connectionHeader = "close" ∧ r.close = true := by
  cases ro with
  | err e =>
    by_cases hs : classifyReadRequestError e = 431 <;>
      · simp [handleHTTPConnect, hs] at h
        obtain ⟨h1, h2⟩ := h
        subst h1
        exact ⟨rfl, rfl⟩
  | ok req =>
    by_cases hm : req.method = "CONNECT"
    · cases hca : connectTargetS req.host with
      | err e =>
        simp [handleHTTPConnect, hm, hca] at h
        obtain ⟨h1, h2⟩ := h
        subst h1
        exact ⟨rfl, rfl⟩
      | ok a =>
        cases d <;> simp [handleHTTPConnect, hm, hca] at h
        obtain ⟨h1, h2⟩ := h
        subst h1
        exact ⟨rfl, rfl⟩
    · simp [handleHTTPConnect, hm] at h
      obtain ⟨h1, h2⟩ := h
      subst h1
      exact ⟨rfl, rfl⟩

/-! ## Claim theorems -/

/-- C1: a connection whose one-byte peek succeeds is routed to the SOCKS5
engine exactly when the first byte is 0x05 and to the HTTP CONNECT handler
for any other first byte; the downstream reader observes the stream from
its first byte with nothing lost or duplicated, and the peek moves only
the single first byte into the replay buffer. -/
theorem handleConn_routes_by_first_byte (b : Nat) (rest : List Nat) :
    handleConn (b :: rest) =
      ((if b = 0x05 then Route.socks5 else Route.http), b :: rest) ∧
    BufReader.peek1 ⟨[], b :: rest⟩ = some (b, ⟨[b], rest⟩) := by
  refine ⟨?_, rfl⟩
  by_cases h : b = 0x05 <;>
    simp [handleConn, BufReader.peek1, BufReader.readAll, isSOCKS5, h]

/-- C2: the HTTP handler's wire response is decided by the first failing
step in order: non-CONNECT method → 405 without dialing; CONNECT whose
authority fails normalization → 400 without dialing; failed dial → 502;
successful CONNECT → exactly the literal
`HTTP/1.1 200 Connection Established\r\n\r\n` with no headers or body;
and every error response carries `Connection: close`. -/
theorem handleHTTPConnect_response_order (req : HttpRequest) (dialOk : Bool)
    (ro : ReadOutcome) :
    (req.method ≠ "CONNECT" →
      handleHTTPConnect (.ok req) dialOk =
        (.errorResp (writeHTTPError 405 "CONNECT required\n"), false)) ∧
    (∀ e, req.method = "CONNECT" → connectTargetS req.host = .err e →
      handleHTTPConnect (.ok req) dialOk =
        (.errorResp (writeHTTPError 400 "invalid CONNECT host\n"), false)) ∧
    (∀ a, req.method = "CONNECT" → connectTargetS req.host = .ok a →
      handleHTTPConnect (.ok req) false =
        (.errorResp (writeHTTPError 502 "dial failed\n"), true)) ∧
    (∀ a, req.method = "CONNECT" → connectTargetS req.host = .ok a →
      handleHTTPConnect (.ok req) true =
        (.raw "HTTP/1.1 200 Connection Established\r\n\r\n", true)) ∧
    (∀ r b, handleHTTPConnect ro dialOk = (.errorResp r, b) →
      r.connectionHeader = "close" ∧ r.close = true) := by
  refine ⟨?_, ?_, ?_, ?_, fun r b h => handleHTTPConnect_error_close ro dialOk r b h⟩
  · intro h
    simp [handleHTTPConnect, h]
  · intro e hm he
    simp [handleHTTPConnect, hm, he]
  · intro a hm ha
    simp [handleHTTPConnect, hm, ha]
  · intro a hm ha
    simp [handleHTTPConnect, hm, ha]

/-- C2 witness: a GET request is answered 405 without dialing. -/
theorem handleHTTPConnect_response_order_witness :
    handleHTTPConnect (.ok ⟨"GET", "example.com:443"⟩) true =
      (.errorResp (writeHTTPError 405 "CONNECT required\n"), false) :=
  (handleHTTPConnect_response_order ⟨"GET", "example.com:443"⟩ true
    (.ok ⟨"GET", "example.com:443"⟩)).1 (by decide)

/-- C3: a failed request read is answered 431 exactly when the byte cap
was exhausted (the limited reader's quota reached zero or the buffer
overflowed) and 400 otherwise, and in both cases the handler returns
without dialing. -/
theorem classifyReadRequestError_cap (e : ReadErrInfo) (d : Bool) :
    (handleHTTPConnect (.err e) d).2 = false ∧
    (classifyReadRequestError e = 431 ↔ (e.lrN ≤ 0 ∨ e.isBufferFull = true)) ∧
    handleHTTPConnect (.err e) d =
      (.errorResp (writeHTTPError
        (if e.lrN ≤ 0 ∨ e.isBufferFull = true then 431 else 400)
        (if e.lrN ≤ 0 ∨ e.isBufferFull = true then "request too large\n"
         else "malformed request\n")), false) := by
  by_cases hN : e.lrN ≤ 0
  · simp [handleHTTPConnect, classifyReadRequestError, hN]
  · by_cases hB : e.isBufferFull <;>
      simp [handleHTTPConnect, classifyReadRequestError, hN, hB]

/-- C3 witness: exhausted quota with a concrete error yields 431 without
dialing. -/
theorem classifyReadRequestError_cap_witness :
    handleHTTPConnect (.err ⟨0, false⟩) true =
      (.errorResp (writeHTTPError 431 "request too large\n"), false) := by
  have h := (classifyReadRequestError_cap ⟨0, false⟩ true).2.2
  simpa using h

/-- C7: the backoff delay becomes 50ms after a transient failure when it
was previously reset, exactly doubles on each further consecutive
transient failure up to the 1s ceiling (never exceeding it), and every
successful accept resets it to zero. -/
theorem serveRetryStep_backoff (d : Int) :
    serveRetryStep true d = 0 ∧
    serveRetryStep false 0 = 50000000 ∧
    (0 < d → d ≤ maxAcceptRetryDelay →
      serveRetryStep false d = min (2 * d) maxAcceptRetryDelay ∧
      serveRetryStep false d ≤ maxAcceptRetryDelay) := by
  refine ⟨rfl, by decide, ?_⟩
  intro h1 h2
  have hmax : maxAcceptRetryDelay = 1000000000 := rfl
  have hw : wrap64 (2 * d) = 2 * d := by
    unfold wrap64
    rw [Int.emod_eq_of_lt (by omega) (by omega)]
    omega
  have hnp : ¬d ≤ 0 := by omega
  unfold serveRetryStep nextRetryDelay
  rw [if_neg (by simp), if_neg hnp]
  simp only [hw]
  by_cases hc : 2 * d > maxAcceptRetryDelay
  · rw [if_pos hc]
    constructor
    · omega
    · omega
  · rw [if_neg hc]
    constructor
    · omega
    · omega

/-- C7 witness: from 800ms a further transient failure is capped at the
1s ceiling. -/
theorem serveRetryStep_backoff_witness :
    serveRetryStep false 800000000 = min (2 * 800000000) maxAcceptRetryDelay ∧
    serveRetryStep false 800000000 ≤ maxAcceptRetryDelay :=
  (serveRetryStep_backoff 800000000).2.2 (by decide) (by decide)

/-- C8: every Read and every Write on the idle-timeout wrapper sets the
underlying connection's absolute deadline to now plus the configured
duration before delegating (the data transferred is exactly the
underlying stream's), and the default duration is 5 minutes. -/
theorem idleTimeoutConn_resets_deadline (c : IdleTimeoutConn) (now : Int)
    (n : Nat) (p : List Nat) :
    (c.read now n).2.conn.deadline = now + c.timeout ∧
    (c.read now n).1 = c.conn.input.take n ∧
    (c.read now n).2.conn.input = c.conn.input.drop n ∧
    (c.read now n).2.conn.output = c.conn.output ∧
    (c.read now n).2.timeout = c.timeout ∧
    (c.write now p).conn.deadline = now + c.timeout ∧
    (c.write now p).conn.output = c.conn.output ++ p ∧
    (c.write now p).conn.input = c.conn.input ∧
    tunnelIdleTimeout = 5 * 60 * 1000000000 :=
  ⟨rfl, rfl, rfl, rfl, rfl, rfl, rfl, rfl, rfl⟩

/-- C9: a bracketed IPv6 literal without a port is accepted but
double-bracketed: `[::1]` resolves to `[[::1]]:443`. -/
theorem connectTarget_rebrackets_bracketed_ipv6 :
    connectTargetS "[::1]" = .ok "[[::1]]:443".data := by decide

/-- C10: a target with an embedded tab (whitespace other than a space) is
accepted and returned with `:443` appended, because the filter rejects
only space, `/` and `\`. -/
theorem connectTarget_accepts_embedded_tab :
    "host\tname".data.contains '\t' = true ∧
    connectTargetS "host\tname" = .ok "host\tname:443".data := by decide

/-- C6 counterexample: `" example.com"` contains a space, yet the resolver
accepts it (the leading space is trimmed before the character filter). -/
theorem connectTarget_space_counterexample :
    " example.com".data.contains ' ' = true ∧
    connectTargetS " example.com" = .ok "example.com:443".data := by decide

/-- C4: every well-formed `host:port` target — an unbracketed nonempty
host of safe characters, or a bracketed IPv6 host (containing a colon)
of safe characters, with a port that is a base-10 integer in
[1, 65535] — resolves to itself unchanged. -/
theorem connectTarget_wellformed_unchanged (h p : List Char)
    (hport : validPortStr p) :
    (h ≠ [] → (∀ c ∈ h, SafeHostChar c) →
      connectTarget (h ++ ':' :: p) = .ok (h ++ ':' :: p)) ∧
    (':' ∈ h → (∀ c ∈ h, SafeV6Char c) →
      connectTarget ('[' :: h ++ ']' :: ':' :: p) =
        .ok ('[' :: h ++ ']' :: ':' :: p)) := by
  obtain ⟨hpne, hpdig, hpval1, hpval2⟩ := hport
  have hdig : ∀ x ∈ p, goDigit x = true := fun x hx =>
    List.all_eq_true.mp hpdig x hx
  have hpfacts := fun x hx => goDigit_facts x (hdig x hx)
  have hempp : p.isEmpty = false := by
    cases p with
    | nil => exact absurd rfl hpne
    | cons a t => rfl
  have hparse : parseUint16 p = some (digitsVal p) := by
    simp [parseUint16, hempp, hpdig, hpval2]
  constructor
  · intro hne hsafe
    have hsp : ∀ x ∈ h ++ ':' :: p, goIsSpace x = false := by
      intro x hx
      rcases List.mem_append.mp hx with hx | hx
      · exact (hsafe x hx).1
      · rcases List.mem_cons.mp hx with rfl | hx
        · decide
        · exact (hpfacts x hx).1
    have htrim : trimSpace (h ++ ':' :: p) = h ++ ':' :: p :=
      trimSpace_eq_self _ hsp
    have hemp : (h ++ ':' :: p).isEmpty = false := by
      cases h with
      | nil => rfl
      | cons a t => rfl
    have hca : containsAny (h ++ ':' :: p) [' ', '/', '\\'] = false := by
      rw [containsAny_eq_false_iff]
      intro x hx
      have hxs := ne_space_of_not_space x (hsp x hx)
      rcases List.mem_append.mp hx with hx | hx
      · simp [hxs, (hsafe x hx).2.2.2.2.1, (hsafe x hx).2.2.2.2.2]
      · rcases List.mem_cons.mp hx with rfl | hx
        · decide
        · simp [hxs, (hpfacts x hx).2.2.2.2.1, (hpfacts x hx).2.2.2.2.2.1]
    have hsplit : splitHostPort (h ++ ':' :: p) = .ok (h, p) := by
      refine splitHostPort_unbracketed h p ?_ ?_ ?_
      · exact fun x hx =>
          ⟨(hsafe x hx).2.1, (hsafe x hx).2.2.1, (hsafe x hx).2.2.2.1⟩
      · exact fun x hx =>
          ⟨(hpfacts x hx).2.1, (hpfacts x hx).2.2.1, (hpfacts x hx).2.2.2.1⟩
      · cases h with
        | nil => exact absurd rfl hne
        | cons a t =>
          simp only [List.cons_append, List.head?_cons, ne_eq,
            Option.some.injEq]
          exact (hsafe a (List.mem_cons_self a t)).2.2.1
    have htrimh : trimSpace h = h :=
      trimSpace_eq_self h fun x hx => (hsafe x hx).1
    have hemph : h.isEmpty = false := by
      cases h with
      | nil => exact absurd rfl hne
      | cons a t => rfl
    have hcolon : hasChar h ':' = false :=
      (hasChar_eq_false_iff h ':').mpr fun x hx => (hsafe x hx).2.1
    have hjoin : joinHostPort h p = h ++ ':' :: p := by
      simp [joinHostPort, hcolon]
    have hval : ¬(digitsVal p = 0) := by omega
    simp [connectTarget, htrim, hemp, hca, hsplit, htrimh, hemph, hparse,
      hjoin, hval]
  · intro hcol hsafe
    have hne : h ≠ [] := by
      intro he; rw [he] at hcol; cases hcol
    have hsp : ∀ x ∈ '[' :: h ++ ']' :: ':' :: p, goIsSpace x = false := by
      intro x hx
      rcases List.mem_cons.mp hx with rfl | hx
      · decide
      · rcases List.mem_append.mp hx with hx | hx
        · exact (hsafe x hx).1
        · rcases List.mem_cons.mp hx with rfl | hx
          · decide
          · rcases List.mem_cons.mp hx with rfl | hx
            · decide
            · exact (hpfacts x hx).1
    have htrim : trimSpace ('[' :: h ++ ']' :: ':' :: p) =
        '[' :: h ++ ']' :: ':' :: p := trimSpace_eq_self _ hsp
    have hemp : ('[' :: h ++ ']' :: ':' :: p).isEmpty = false := rfl
    have hca : containsAny ('[' :: h ++ ']' :: ':' :: p) [' ', '/', '\\'] =
        false := by
      rw [containsAny_eq_false_iff]
      intro x hx
      have hxs := ne_space_of_not_space x (hsp x hx)
      rcases List.mem_cons.mp hx with rfl | hx
      · decide
      · rcases List.mem_append.mp hx with hx | hx
        · simp [hxs, (hsafe x hx).2.2.2.1, (hsafe x hx).2.2.2.2]
        · rcases List.mem_cons.mp hx with rfl | hx
          · decide
          · rcases List.mem_cons.mp hx with rfl | hx
            · decide
            · simp [hxs, (hpfacts x hx).2.2.2.2.1,
                (hpfacts x hx).2.2.2.2.2.1]
    have hsplit : splitHostPort ('[' :: h ++ ']' :: ':' :: p) = .ok (h, p) := by
      refine splitHostPort_bracketed h p ?_ ?_
      · exact fun x hx => ⟨(hsafe x hx).2.1, (hsafe x hx).2.2.1⟩
      · exact fun x hx =>
          ⟨(hpfacts x hx).2.1, (hpfacts x hx).2.2.1, (hpfacts x hx).2.2.2.1⟩
    have htrimh : trimSpace h = h :=
      trimSpace_eq_self h fun x hx => (hsafe x hx).1
    have hemph : h.isEmpty = false := by
      cases h with
      | nil => exact absurd rfl hne
      | cons a t => rfl
    have hcolon : hasChar h ':' = true := hasChar_of_mem h ':' hcol
    have hjoin : joinHostPort h p = '[' :: h ++ ']' :: ':' :: p := by
      simp [joinHostPort, hcolon]
    have hval : ¬(digitsVal p = 0) := by omega
    simp only [connectTarget, htrim, hemp, hca, hsplit, htrimh, hemph,
      hparse, hjoin, Bool.false_eq_true, if_false, eq_false hval]

/-- C4 witness: a concrete `host:port` and a concrete bracketed IPv6
target are returned unchanged. -/
theorem connectTarget_wellformed_unchanged_witness :
    connectTargetS "example.com:8443" = .ok "example.com:8443".data ∧
    connectTargetS "[::1]:443" = .ok "[::1]:443".data := by
  constructor
  · have hth := (connectTarget_wellformed_unchanged "example.com".data
      "8443".data (by decide)).1 (by decide) (by decide)
    have heq : "example.com".data ++ ':' :: "8443".data =
        "example.com:8443".data := by decide
    rw [heq] at hth
    exact hth
  · have hth := (connectTarget_wellformed_unchanged "::1".data
      "443".data (by decide)).2 (by decide) (by decide)
    have heq : '[' :: "::1".data ++ ']' :: ':' :: "443".data =
        "[::1]:443".data := by decide
    rw [heq] at hth
    exact hth

/-- C5: a target lacking a port — a colon-free hostname or IPv4 literal,
or a bare unbracketed IPv6 literal (at least two colons, no leading
bracket) — made of safe characters resolves with default port 443
appended, a bare IPv6 literal being bracketed first. -/
theorem connectTarget_appends_default_port (s : List Char) (hne : s ≠ [])
    (hsafe : ∀ c ∈ s, goIsSpace c = false ∧ c ≠ '/' ∧ c ≠ '\\') :
    ((∀ c ∈ s, c ≠ ':') →
      connectTarget s = .ok (s ++ ':' :: ['4', '4', '3'])) ∧
    (countChar s ':' ≥ 2 → s.head? ≠ some '[' →
      connectTarget s = .ok ('[' :: s ++ ']' :: ':' :: ['4', '4', '3'])) := by
  have htrim : trimSpace s = s := trimSpace_eq_self s fun x hx => (hsafe x hx).1
  have hemp : s.isEmpty = false := by
    cases s with
    | nil => exact absurd rfl hne
    | cons a t => rfl
  have hca : containsAny s [' ', '/', '\\'] = false := by
    rw [containsAny_eq_false_iff]
    intro x hx
    have h1 := hsafe x hx
    simp [ne_space_of_not_space x h1.1, h1.2.1, h1.2.2]
  constructor
  · intro hnc
    have hsplit : splitHostPort s = .error .missingPort := by
      have hn : lastIdx s ':' = none := (lastIdx_eq_none_iff s ':').mpr hnc
      simp [splitHostPort, hn]
    have hcnt : countChar s ':' = 0 := countChar_eq_zero_of s ':' hnc
    have hhas : hasChar s ':' = false := (hasChar_eq_false_iff s ':').mpr hnc
    have hjoin : joinHostPort s ['4', '4', '3'] = s ++ ':' :: ['4', '4', '3'] := by
      simp [joinHostPort, hhas]
    have hcond : ¬(countChar s ':' ≥ 2 ∧ ¬s.head? = some '[') := by
      rw [hcnt]; omega
    simp only [connectTarget, htrim, hemp, hca, hsplit, hjoin,
      Bool.false_eq_true, if_false]
    simp [hcond]
  · intro hge hhd
    have hhc : hasChar s ':' = true := by
      cases hb : hasChar s ':' with
      | true => rfl
      | false =>
        have hz := countChar_eq_zero_of s ':' ((hasChar_eq_false_iff s ':').mp hb)
        omega
    obtain ⟨i, hi⟩ := lastIdx_isSome_of_hasChar s ':' hhc
    obtain ⟨hdecomp, hafter⟩ := lastIdx_decomp s ':' i hi
    have hcnt2 : 1 ≤ countChar (s.take i) ':' := by
      have hsum := countChar_append (s.take i) (':' :: s.drop (i + 1)) ':'
      rw [hdecomp] at hsum
      have hdz : countChar (s.drop (i + 1)) ':' = 0 :=
        countChar_eq_zero_of _ _ hafter
      simp [countChar, hdz] at hsum
      omega
    have htakehas : hasChar (s.take i) ':' = true := by
      cases hb : hasChar (s.take i) ':' with
      | true => rfl
      | false =>
        have hz := countChar_eq_zero_of _ _ ((hasChar_eq_false_iff _ _).mp hb)
        omega
    have hsplit : splitHostPort s = .error .tooManyColons := by
      simp only [splitHostPort, hi]
      rw [if_neg hhd]
      simp [htakehas]
    have hjoin : joinHostPort s ['4', '4', '3'] =
        '[' :: s ++ ']' :: ':' :: ['4', '4', '3'] := by
      simp [joinHostPort, hhc]
    simp only [connectTarget, htrim, hemp, hca, hsplit, hjoin,
      Bool.false_eq_true, if_false]
    simp [hge, hhd]

/-- C5 witness: a hostname gains `:443`; a bare IPv6 literal is bracketed
and gains `:443`. -/
theorem connectTarget_appends_default_port_witness :
    connectTargetS "example.com" = .ok "example.com:443".data ∧
    connectTargetS "::1" = .ok "[::1]:443".data := by
  constructor
  · have hth := (connectTarget_appends_default_port "example.com".data
      (by decide) (by decide)).1 (by decide)
    have heq : "example.com".data ++ ':' :: ['4', '4', '3'] =
        "example.com:443".data := by decide
    rw [heq] at hth
    exact hth
  · have hth := (connectTarget_appends_default_port "::1".data
      (by decide) (by decide)).2 (by decide) (by decide)
    have heq : '[' :: "::1".data ++ ']' :: ':' :: ['4', '4', '3'] =
        "[::1]:443".data := by decide
    rw [heq] at hth
    exact hth

/-- C6 (amended): every target that, after trimming surrounding
whitespace, contains a space, `/` or `\`, or is empty, or splits as
`host:port` with an empty host or with a port that is not a base-10
integer in [1, 65535] (port 0 rejected), fails with an `InvalidTarget`
error and yields no normalized address. -/
theorem connectTarget_rejects_invalid (s : List Char)
    (hcond : containsAny (trimSpace s) [' ', '/', '\\'] = true ∨
      trimSpace s = [] ∨
      ∃ hst prt, splitHostPort (trimSpace s) = .ok (hst, prt) ∧
        (hst = [] ∨ parseUint16 prt = none ∨ parseUint16 prt = some 0)) :
    ∃ e, connectTarget s = .err e := by
  by_cases hemp : (trimSpace s).isEmpty = true
  · exact ⟨.emptyHost, by simp only [connectTarget, hemp, if_true]⟩
  · have hemp' : (trimSpace s).isEmpty = false := by
      cases hb : (trimSpace s).isEmpty with
      | true => exact absurd hb hemp
      | false => rfl
    by_cases hcany : containsAny (trimSpace s) [' ', '/', '\\'] = true
    · refine ⟨.invalidHostFormat, ?_⟩
      simp only [connectTarget, hemp', hcany, Bool.false_eq_true, if_false,
        if_true]
    · rcases hcond with hc | hc | ⟨hst, prt, hsp, hbad⟩
      · exact absurd hc hcany
      · exfalso
        rw [hc] at hemp'
        cases hemp'
      · have hcany' : containsAny (trimSpace s) [' ', '/', '\\'] = false := by
          cases hb : containsAny (trimSpace s) [' ', '/', '\\'] with
          | true => exact absurd hb hcany
          | false => rfl
        rcases hbad with rfl | hpn | hp0
        · refine ⟨.emptyHost, ?_⟩
          simp only [connectTarget, hemp', hcany', hsp, Bool.false_eq_true,
            if_false]
          simp [trimSpace]
        · by_cases hth : (trimSpace hst).isEmpty = true
          · refine ⟨.emptyHost, ?_⟩
            simp only [connectTarget, hemp', hcany', hsp, hth,
              Bool.false_eq_true, if_false]
            simp
          · have hth' : (trimSpace hst).isEmpty = false := by
              cases hb : (trimSpace hst).isEmpty with
              | true => exact absurd hb hth
              | false => rfl
            refine ⟨.invalidPort, ?_⟩
            simp only [connectTarget, hemp', hcany', hsp, hth', hpn,
              Bool.false_eq_true, if_false]
        · by_cases hth : (trimSpace hst).isEmpty = true
          · refine ⟨.emptyHost, ?_⟩
            simp only [connectTarget, hemp', hcany', hsp, hth,
              Bool.false_eq_true, if_false]
            simp
          · have hth' : (trimSpace hst).isEmpty = false := by
              cases hb : (trimSpace hst).isEmpty with
              | true => exact absurd hb hth
              | false => rfl
            refine ⟨.invalidPort, ?_⟩
            simp only [connectTarget, hemp', hcany', hsp, hth', hp0,
              Bool.false_eq_true, if_false, if_true]

/-- C6 witness: the concrete target `example.com:0` (port 0) is rejected. -/
theorem connectTarget_rejects_invalid_witness :
    ∃ e, connectTarget "example.com:0".data = .err e :=
  connectTarget_rejects_invalid "example.com:0".data
    (Or.inr (Or.inr ⟨"example.com".data, ['0'], by rfl,
      Or.inr (Or.inr (by rfl))⟩))

end Tailgate
